import Mathlib

/-!
# Verification of the NL-to-SQL pipeline (`app.py`)

Shallow embedding of the single source file `app.py` of this repository:
a command-line question-answering tool over a MySQL database.  Strings are
modelled as `List Char` (Python `str`), the two external collaborators
(the MySQL server and the language-model endpoint) are modelled as oracle
functions supplied in an environment record, and Python exceptions are
modelled with `Except`, the error payload being the exception message.

Python's regex and string primitives are modelled for ASCII text (the
source only ever manipulates ASCII keywords): `\s` is the six ASCII
whitespace characters, `\w` is `[A-Za-z0-9_]`, and case-insensitive
matching of a letter accepts exactly its two ASCII cases.
-/

/-- ASCII model of Python `\s` / `str.strip()` whitespace. -/
def isPySpace (c : Char) : Bool :=
  c == ' ' || c == '\t' || c == '\n' || c == '\r' || c == '\x0b' || c == '\x0c'

/-- ASCII model of Python regex `\w` (word character), used for `\b`. -/
def isWordChar (c : Char) : Bool :=
  c.isAlphanum || c == '_'

/-- ASCII lower-casing, model of Python `str.lower()` on ASCII text. -/
def toLow (c : Char) : Char :=
  if 'A' ≤ c && c ≤ 'Z' then Char.ofNat (c.toNat + 32) else c

/-- `l.dropWhile isPySpace`: Python `str.lstrip()`. -/
def lstrip (l : List Char) : List Char := l.dropWhile isPySpace

/-- Strip the maximal suffix of characters satisfying `p`. -/
def rstripP (p : Char → Bool) (l : List Char) : List Char :=
  (l.reverse.dropWhile p).reverse

/-- Python `str.rstrip()` (whitespace). -/
def rstripWs (l : List Char) : List Char := rstripP isPySpace l

/-- Python `str.rstrip(";")`: strips every trailing semicolon. -/
def rstripSemi (l : List Char) : List Char := rstripP (fun c => c == ';') l

/-- Python `str.strip()`: whitespace stripped from both ends. -/
def pstrip (l : List Char) : List Char := rstripWs (lstrip l)

/-- Match a case-insensitive literal: each pattern position lists the two
accepted ASCII cases; on success return the unconsumed rest. -/
def dropToks : List (Char × Char) → List Char → Option (List Char)
  | [], s => some s
  | _ :: _, [] => none
  | (lo, hi) :: ps, c :: cs => if c == lo || c == hi then dropToks ps cs else none

/-- The literal `select` of the regex `(?is)^\s*select\b`, both cases. -/
def selPat : List (Char × Char) :=
  [('s', 'S'), ('e', 'E'), ('l', 'L'), ('e', 'E'), ('c', 'C'), ('t', 'T')]

/-- The literal `limit` of the regex `(?is)\blimit\s+\d+\b`, both cases. -/
def limPat : List (Char × Char) :=
  [('l', 'L'), ('i', 'I'), ('m', 'M'), ('i', 'I'), ('t', 'T')]

/-- Regex `\b` right after a literal ending in a word character: the next
character, if any, must not be a word character. -/
def boundOk : List Char → Bool
  | [] => true
  | c :: _ => !isWordChar c

/-- `select\b` matches at the head of `s` (case-insensitive). -/
def selAfter (s : List Char) : Bool :=
  match dropToks selPat s with
  | none => false
  | some r => boundOk r

/-- `re.match(r"(?is)^\s*select\b", s)` succeeds (`app.py` line 68).
`re.match` anchors at the start; `^\s*` skips leading whitespace. -/
def matchesSelect (s : List Char) : Bool := selAfter (lstrip s)

/-- After `limit`: `\s+\d+\b` matches at the head of `s` — at least one
whitespace character, then at least one digit, then a word boundary. -/
def digitsBound (s : List Char) : Bool :=
  match s with
  | [] => false
  | d :: _ => d.isDigit && boundOk (s.dropWhile Char.isDigit)

/-- The `\s+\d+\b` part applied to the rest after the literal `limit`. -/
def limTail (s : List Char) : Bool :=
  match s with
  | [] => false
  | c :: _ => isPySpace c && digitsBound (s.dropWhile isPySpace)

/-- `limit\s+\d+\b` matches at the head of `s` (case-insensitive). -/
def limitMatchHere (s : List Char) : Bool :=
  match dropToks limPat s with
  | none => false
  | some r => limTail r

/-- Scan for `\blimit\s+\d+\b` anywhere; `bOk` records whether a match may
start at the current position (true at start of text or after a non-word
character — the regex `\b` before `limit`). -/
def hasLimitAux : Bool → List Char → Bool
  | _, [] => false
  | bOk, c :: rest => (bOk && limitMatchHere (c :: rest)) || hasLimitAux (!isWordChar c) rest

/-- `re.search(r"(?is)\blimit\s+\d+\b", s)` succeeds (`app.py` line 72). -/
def hasLimit (s : List Char) : Bool := hasLimitAux true s

/-- The message prepended by `raise ValueError("Model returned non-SELECT
SQL:\n" + sql)` (`app.py` line 69). -/
def nonSelectMsg : List Char := "Model returned non-SELECT SQL:\n".data

/-- The appended row-limit clause `" LIMIT 100;"` (`app.py` line 73). -/
def limitGlue : List Char := " LIMIT 100;".data

/-- The SQL guardrail, `app.py` lines 65-75: strip the model output
(line 65), reject unless it starts with `SELECT` (lines 68-69), and if no
`LIMIT <digits>` token is present anywhere, strip trailing whitespace and
trailing semicolons and append `" LIMIT 100;"` (lines 72-73). -/
def guardrail (out : List Char) : Except (List Char) (List Char) :=
  let sql := pstrip out
  if matchesSelect sql = false then .error (nonSelectMsg ++ sql)
  else if hasLimit sql = false then .ok (rstripSemi (rstripWs sql) ++ limitGlue)
  else .ok sql

/-- Column names of a result set (`cur.description`). -/
abbrev Cols := List (List Char)

/-- A fetched row; cell values modelled as their textual form. -/
abbrev Row := List (List Char)

/-- First part of the `PROMPT` template of `app.py` lines 39-49,
up to and including `Here is the database DDL:` and its newline. -/
def promptHead : List Char :=
  ("You translate a user question into a single MySQL SELECT query.\n\nRules:\n- Output ONLY SQL (no prose, no backticks, no comments).\n- Absolutely no DML/DDL (no INSERT/UPDATE/DELETE/ALTER/CREATE/DROP).\n- Use explicit JOINs, short table aliases.\n- Prefer safe defaults: if no limit is requested, add LIMIT 100.\n- Use column and table names exactly as defined.\n\nHere is the database DDL:\n").data

/-- Middle part of the `PROMPT` template, between the schema and the
question (`app.py` lines 49-52). -/
def promptMid : List Char := "\n\nQuestion:\n".data

/-- `PROMPT.format(schema=schema, question=question)` (`app.py` line 57). -/
def promptOf (schema question : List Char) : List Char :=
  promptHead ++ schema ++ promptMid ++ question ++ "\n".data

/-- Oracle environment: outcomes of the external calls made by one
question's pipeline.  `schemaDdl` is the outcome of `get_schema_ddl()`
(`.error` models a connection or query failure), `llm` maps the
SQL-generation prompt to the model response's `output_text`, `db` maps an
executed SQL string to the `(cols, rows)` pair returned by `run_sql`, and
`llmSum` maps the question and the preview object to the summarizer
response's `output_text`. -/
structure Env where
  schemaDdl : Except (List Char) (List Char)
  llm : List Char → Except (List Char) (List Char)
  db : List Char → Except (List Char) (Cols × List Row)
  llmSum : List Char → Cols × List Row → Except (List Char) (List Char)

/-- `generate_sql` (`app.py` lines 55-75): fetch the schema, prompt the
model, then apply the guardrail to the stripped response text. -/
def generate_sql (env : Env) (q : List Char) : Except (List Char) (List Char) :=
  match env.schemaDdl with
  | .error e => .error e
  | .ok schema =>
    match env.llm (promptOf schema q) with
    | .error e => .error e
    | .ok out => guardrail out

/-- The preview object `{"columns": cols, "rows": rows[:50]}` built by
`summarize` (`app.py` line 89). -/
def previewOf (cols : Cols) (rows : List Row) : Cols × List Row :=
  (cols, rows.take 50)

/-- `summarize` (`app.py` lines 88-97): send the question and the bounded
preview to the model and strip the response text. -/
def summarize (env : Env) (q : List Char) (cols : Cols) (rows : List Row) :
    Except (List Char) (List Char) :=
  match env.llmSum q (previewOf cols rows) with
  | .error e => .error e
  | .ok t => .ok (pstrip t)

/-- One console section printed by `main` for a question. -/
inductive OutEvent where
  | sqlSec : List Char → OutEvent
  | resultTable : Cols → List Row → OutEvent
  | resultEmpty : OutEvent
  | answerSec : List Char → OutEvent
  | errorSec : List Char → OutEvent
deriving DecidableEq

/-- The `try`/`except` body of `main` for one question (`app.py` lines
105-116): the sections printed, in order.  The `[SQL]` section is printed
as soon as `generate_sql` returns; the `(no rows)` notice is printed when
the column list is empty (`if cols:`); any exception ends the question
with an `[ERROR]` section. -/
def processQuestion (env : Env) (q : List Char) : List OutEvent :=
  match generate_sql env q with
  | .error e => [.errorSec e]
  | .ok sql =>
    match env.db sql with
    | .error e => [.sqlSec sql, .errorSec e]
    | .ok (cols, rows) =>
      let resEv := if cols.isEmpty then OutEvent.resultEmpty
                   else OutEvent.resultTable cols rows
      match summarize env q cols rows with
      | .error e => [.sqlSec sql, resEv, .errorSec e]
      | .ok ans => [.sqlSec sql, resEv, .answerSec ans]

/-- The per-question pipeline without the `try`/`except`: the first
exception anywhere in schema fetch, generation, guardrail, execution or
summarization, or the final answer (`app.py` lines 106-114). -/
def pipelineResult (env : Env) (q : List Char) : Except (List Char) (List Char) :=
  match generate_sql env q with
  | .error e => .error e
  | .ok sql =>
    match env.db sql with
    | .error e => .error e
    | .ok (cols, rows) => summarize env q cols rows

/-- `q.lower() in {"exit", "quit"}` (`app.py` line 103). -/
def isExitCmd (q : List Char) : Bool :=
  (q.map toLow == "exit".data) || (q.map toLow == "quit".data)

/-- The interactive loop of `main` (`app.py` lines 101-116) over a list of
input lines: each line is stripped; `exit`/`quit` terminates; any other
line (empty included) is processed as a question and the loop continues. -/
def loop (env : Env) : List (List Char) → List OutEvent
  | [] => []
  | line :: rest =>
    let q := pstrip line
    if isExitCmd q then [] else processQuestion env q ++ loop env rest

/-- `errorSec` recogniser, for counting `[ERROR]` sections. -/
def isErrorSec : OutEvent → Bool
  | .errorSec _ => true
  | _ => false

/-- Number of `[ERROR]` sections printed. -/
def countErrors (evs : List OutEvent) : Nat := (evs.filter isErrorSec).length

/-- The database side of `get_schema_ddl`: the set of tables of the target
schema and the `SHOW CREATE TABLE` statement of each. -/
structure Db where
  tableNames : List (List Char)
  showCreate : List Char → List Char

/-- The catalog listing `SELECT table_name FROM information_schema.tables
WHERE table_schema = %s ORDER BY table_name` (`app.py` lines 24-28); the
`ORDER BY` is modelled by sorting the table names lexicographically. -/
def catalogTables (db : Db) : List (List Char) :=
  List.insertionSort (· ≤ ·) db.tableNames

/-- The definition blocks `create_stmt + ";"` (`app.py` line 34), one per
listed table, in listing order. -/
def ddlBlocks (db : Db) : List (List Char) :=
  (catalogTables db).map (fun t => db.showCreate t ++ [';'])

/-- `get_schema_ddl` (`app.py` lines 19-37): `"\n\n".join(ddl_parts)`. -/
def get_schema_ddl (db : Db) : List Char :=
  List.intercalate ['\n', '\n'] (ddlBlocks db)

example : guardrail "SELECT * FROM products".data =
    .ok "SELECT * FROM products LIMIT 100;".data := rfl

example : guardrail "DROP TABLE products;".data =
    .error (nonSelectMsg ++ "DROP TABLE products;".data) := rfl

example : guardrail " select id from orders limit 5".data =
    .ok "select id from orders limit 5".data := rfl

example : guardrail "SELECT 1; DROP TABLE t".data =
    .ok "SELECT 1; DROP TABLE t LIMIT 100;".data := rfl

example : guardrail "SELECT 1;;".data = .ok "SELECT 1 LIMIT 100;".data := rfl

example : guardrail "SELECTx 1".data =
    .error (nonSelectMsg ++ "SELECTx 1".data) := rfl

example : guardrail "  ".data = .error nonSelectMsg := by
  have : (nonSelectMsg ++ ([] : List Char)) = nonSelectMsg := by simp
  rw [← this]
  rfl

/-! ## Character-class lemmas -/

theorem pySpace_cases {c : Char} (h : isPySpace c = true) :
    c = ' ' ∨ c = '\t' ∨ c = '\n' ∨ c = '\r' ∨ c = '\x0b' ∨ c = '\x0c' := by
  simpa [isPySpace, or_assoc] using h

theorem pySpace_not_word {c : Char} (h : isPySpace c = true) : isWordChar c = false := by
  rcases pySpace_cases h with h | h | h | h | h | h <;> subst h <;> decide

theorem pySpace_not_digit {c : Char} (h : isPySpace c = true) : c.isDigit = false := by
  rcases pySpace_cases h with h | h | h | h | h | h <;> subst h <;> decide

theorem pySpace_not_lL {c : Char} (h : isPySpace c = true) :
    (c == 'l' || c == 'L') = false := by
  rcases pySpace_cases h with h | h | h | h | h | h <;> subst h <;> decide

/-! ## `dropToks` lemmas -/

theorem dropToks_append {P : List (Char × Char)} {a b r : List Char}
    (h : dropToks P a = some r) : dropToks P (a ++ b) = some (r ++ b) := by
  induction P generalizing a r with
  | nil =>
    simp only [dropToks, Option.some.injEq] at h
    subst h
    rfl
  | cons p ps ih =>
    obtain ⟨lo, hi⟩ := p
    cases a with
    | nil => simp [dropToks] at h
    | cons c cs =>
      simp only [dropToks, List.cons_append] at h ⊢
      by_cases hc : (c == lo || c == hi) = true
      · rw [if_pos hc] at h ⊢
        exact ih h
      · rw [if_neg hc] at h
        exact absurd h (by simp)

theorem dropToks_none_append {P : List (Char × Char)} {t ws : List Char}
    (hP : ∀ pr ∈ P, isPySpace pr.1 = false ∧ isPySpace pr.2 = false)
    (hws : ∀ c ∈ ws, isPySpace c = true)
    (h : dropToks P t = none) : dropToks P (t ++ ws) = none := by
  induction t generalizing P with
  | nil =>
    cases P with
    | nil => simp [dropToks] at h
    | cons p ps =>
      obtain ⟨lo, hi⟩ := p
      cases ws with
      | nil => exact h
      | cons w ws' =>
        simp only [List.nil_append, dropToks]
        have hw : isPySpace w = true := hws w (List.mem_cons_self _ _)
        have hlo : isPySpace lo = false := (hP (lo, hi) (List.mem_cons_self _ _)).1
        have hhi : isPySpace hi = false := (hP (lo, hi) (List.mem_cons_self _ _)).2
        have : (w == lo || w == hi) = false := by
          simp only [Bool.or_eq_false_iff, beq_eq_false_iff_ne, ne_eq]
          constructor
          · intro he; rw [he] at hw; rw [hw] at hlo; cases hlo
          · intro he; rw [he] at hw; rw [hw] at hhi; cases hhi
        rw [if_neg (by simp [this])]
  | cons c t' ih =>
    cases P with
    | nil => simp [dropToks] at h
    | cons p ps =>
      obtain ⟨lo, hi⟩ := p
      simp only [dropToks, List.cons_append] at h ⊢
      by_cases hc : (c == lo || c == hi) = true
      · rw [if_pos hc] at h ⊢
        exact ih (fun pr hpr => hP pr (List.mem_cons_of_mem _ hpr)) h
      · rw [if_neg hc]

theorem dropToks_decomp {P : List (Char × Char)} {s r : List Char}
    (Q : Char → Prop) (hP : ∀ pr ∈ P, Q pr.1 ∧ Q pr.2)
    (h : dropToks P s = some r) :
    ∃ a, s = a ++ r ∧ dropToks P a = some [] ∧ (∀ c ∈ a, Q c) ∧ a.length = P.length := by
  induction P generalizing s with
  | nil =>
    simp only [dropToks, Option.some.injEq] at h
    exact ⟨[], by simp [h], rfl, by simp, rfl⟩
  | cons p ps ih =>
    obtain ⟨lo, hi⟩ := p
    cases s with
    | nil => simp [dropToks] at h
    | cons c cs =>
      simp only [dropToks] at h
      by_cases hc : (c == lo || c == hi) = true
      · rw [if_pos hc] at h
        obtain ⟨a', ha', hd', hq', hl'⟩ :=
          ih (fun pr hpr => hP pr (List.mem_cons_of_mem _ hpr)) h
        refine ⟨c :: a', by simp [ha'], ?_, ?_, by simp [hl']⟩
        · simp only [dropToks, if_pos hc]
          exact hd'
        · intro x hx
          rcases List.mem_cons.mp hx with hx | hx
          · subst hx
            have hQ := hP (lo, hi) (List.mem_cons_self _ _)
            rcases Bool.or_eq_true _ _ |>.mp hc with hcc | hcc
            · rw [beq_iff_eq] at hcc; rw [hcc]; exact hQ.1
            · rw [beq_iff_eq] at hcc; rw [hcc]; exact hQ.2
          · exact hq' x hx
      · rw [if_neg hc] at h
        exact absurd h (by simp)

/-! ## `rstripP` lemmas -/

theorem rstripP_append (p : Char → Bool) (a b : List Char) :
    rstripP p (a ++ b) = if rstripP p b = [] then rstripP p a else a ++ rstripP p b := by
  unfold rstripP
  rw [List.reverse_append, List.dropWhile_append]
  by_cases hb : (List.dropWhile p b.reverse).isEmpty = true
  · rw [if_pos hb]
    rw [List.isEmpty_iff] at hb
    rw [if_pos (by simp [hb])]
  · rw [if_neg hb]
    rw [List.isEmpty_iff] at hb
    rw [if_neg (by simp [hb]), List.reverse_append, List.reverse_reverse]

theorem rstripP_decomp (p : Char → Bool) (l : List Char) :
    ∃ ws, l = rstripP p l ++ ws ∧ ∀ c ∈ ws, p c = true := by
  refine ⟨(l.reverse.takeWhile p).reverse, ?_, ?_⟩
  · calc l = l.reverse.reverse := (List.reverse_reverse l).symm
    _ = (List.takeWhile p l.reverse ++ List.dropWhile p l.reverse).reverse := by
        rw [List.takeWhile_append_dropWhile]
    _ = (List.dropWhile p l.reverse).reverse ++ (List.takeWhile p l.reverse).reverse := by
        rw [List.reverse_append]
    _ = rstripP p l ++ (List.takeWhile p l.reverse).reverse := rfl
  · intro c hc
    rw [List.mem_reverse] at hc
    exact List.mem_takeWhile_imp hc

theorem rstripP_eq_self {p : Char → Bool} {l : List Char} (h : ∀ c ∈ l, p c = false) :
    rstripP p l = l := by
  unfold rstripP
  have hd : List.dropWhile p l.reverse = l.reverse := by
    cases hr : l.reverse with
    | nil => rfl
    | cons c t =>
      rw [List.dropWhile_cons_of_neg]
      have hm : c ∈ l := by
        rw [← List.mem_reverse, hr]
        exact List.mem_cons_self _ _
      simp [h c hm]
  rw [hd, List.reverse_reverse]

theorem head_rstripP {p : Char → Bool} {l : List Char} (h : rstripP p l ≠ []) :
    (rstripP p l).head? = l.head? := by
  obtain ⟨ws, hl, _⟩ := rstripP_decomp p l
  conv_rhs => rw [hl]
  cases hx : rstripP p l with
  | nil => exact absurd hx h
  | cons c t => simp [hx]

theorem dropWhile_head_false {p : Char → Bool} (l : List Char) {c : Char}
    (h : (l.dropWhile p).head? = some c) : p c = false := by
  induction l with
  | nil => simp at h
  | cons a t ih =>
    by_cases ha : p a = true
    · rw [List.dropWhile_cons, if_pos ha] at h
      exact ih h
    · rw [List.dropWhile_cons, if_neg ha] at h
      simp only [List.head?_cons, Option.some.injEq] at h
      rw [← h]
      exact Bool.not_eq_true _ |>.mp ha

theorem dropWhile_idem (p : Char → Bool) (l : List Char) :
    List.dropWhile p (List.dropWhile p l) = List.dropWhile p l := by
  cases hx : List.dropWhile p l with
  | nil => rfl
  | cons c t =>
    rw [List.dropWhile_cons_of_neg]
    have hc := dropWhile_head_false l (c := c) (by rw [hx]; rfl)
    simp [hc]

theorem rstripP_idem (p : Char → Bool) (l : List Char) :
    rstripP p (rstripP p l) = rstripP p l := by
  unfold rstripP
  rw [List.reverse_reverse, dropWhile_idem]

/-! ## `hasLimit` is invariant under stripping, and detects the glue -/

theorem digitsBound_append_ws {x ws : List Char}
    (hws : ∀ c ∈ ws, isPySpace c = true) :
    digitsBound (x ++ ws) = digitsBound x := by
  cases x with
  | nil =>
    cases ws with
    | nil => rfl
    | cons w ws' =>
      have hw := hws w (List.mem_cons_self _ _)
      simp only [List.nil_append, digitsBound, pySpace_not_digit hw, Bool.false_and]
  | cons d x' =>
    simp only [digitsBound, List.cons_append]
    by_cases hd : d.isDigit = true
    · simp only [hd, Bool.true_and]
      have hsplit : (d :: (x' ++ ws)) = (d :: x') ++ ws := rfl
      rw [hsplit, List.dropWhile_append]
      by_cases hD : (List.dropWhile Char.isDigit (d :: x')).isEmpty = true
      · rw [if_pos hD]
        rw [List.isEmpty_iff] at hD
        rw [hD]
        cases ws with
        | nil => rfl
        | cons w ws' =>
          have hw := hws w (List.mem_cons_self _ _)
          rw [List.dropWhile_cons_of_neg (by simp [pySpace_not_digit hw])]
          simp [boundOk, pySpace_not_word hw]
      · rw [if_neg hD]
        cases hDD : List.dropWhile Char.isDigit (d :: x') with
        | nil => rw [hDD] at hD; simp at hD
        | cons e t => simp [hDD, boundOk]
    · have hd' : d.isDigit = false := by simpa using hd
      simp [hd']

theorem limTail_append_ws {r ws : List Char}
    (hws : ∀ c ∈ ws, isPySpace c = true) :
    limTail (r ++ ws) = limTail r := by
  cases r with
  | nil =>
    cases ws with
    | nil => rfl
    | cons w ws' =>
      have hall : List.dropWhile isPySpace (w :: ws') = [] :=
        List.dropWhile_eq_nil_iff.mpr (fun c hc => hws c hc)
      simp only [List.nil_append, limTail, hall]
      simp [digitsBound]
  | cons c r' =>
    simp only [limTail, List.cons_append]
    by_cases hc : isPySpace c = true
    · simp only [hc, Bool.true_and]
      have hsplit : (c :: (r' ++ ws)) = (c :: r') ++ ws := rfl
      rw [hsplit, List.dropWhile_append]
      by_cases hS : (List.dropWhile isPySpace (c :: r')).isEmpty = true
      · rw [if_pos hS]
        rw [List.isEmpty_iff] at hS
        rw [hS]
        have hallws : List.dropWhile isPySpace ws = [] :=
          List.dropWhile_eq_nil_iff.mpr (fun c hc => hws c hc)
        rw [hallws]
      · rw [if_neg hS]
        exact digitsBound_append_ws hws
    · have hc' : isPySpace c = false := by simpa using hc
      simp [hc']

theorem limitMatchHere_append_ws {t ws : List Char}
    (hws : ∀ c ∈ ws, isPySpace c = true) :
    limitMatchHere (t ++ ws) = limitMatchHere t := by
  cases h : dropToks limPat t with
  | some r =>
    have h2 := dropToks_append (b := ws) h
    simp only [limitMatchHere]
    rw [h2, h]
    exact limTail_append_ws hws
  | none =>
    have h2 := dropToks_none_append (by decide) hws h
    simp only [limitMatchHere]
    rw [h2, h]

theorem limitMatchHere_space_head {w : Char} {l : List Char}
    (h : isPySpace w = true) : limitMatchHere (w :: l) = false := by
  simp [limitMatchHere, limPat, dropToks, pySpace_not_lL h]

theorem hasLimitAux_allspace {ws : List Char}
    (hws : ∀ c ∈ ws, isPySpace c = true) : ∀ b, hasLimitAux b ws = false := by
  induction ws with
  | nil => intro b; rfl
  | cons w ws' ih =>
    intro b
    have hw := hws w (List.mem_cons_self _ _)
    simp only [hasLimitAux, limitMatchHere_space_head hw, Bool.and_false, Bool.false_or]
    exact ih (fun c hc => hws c (List.mem_cons_of_mem _ hc)) _

theorem hasLimitAux_append_ws {t ws : List Char}
    (hws : ∀ c ∈ ws, isPySpace c = true) :
    ∀ b, hasLimitAux b (t ++ ws) = hasLimitAux b t := by
  induction t with
  | nil =>
    intro b
    simpa using hasLimitAux_allspace hws b
  | cons c t' ih =>
    intro b
    simp only [List.cons_append, hasLimitAux, List.append_eq]
    have hm := limitMatchHere_append_ws (t := c :: t') hws
    rw [List.cons_append] at hm
    rw [hm, ih]

theorem hasLimitAux_dropSpaces (s : List Char) :
    hasLimitAux true (lstrip s) = hasLimitAux true s := by
  induction s with
  | nil => rfl
  | cons c s' ih =>
    by_cases hc : isPySpace c = true
    · rw [lstrip, List.dropWhile_cons, if_pos hc]
      rw [show List.dropWhile isPySpace s' = lstrip s' from rfl, ih]
      simp [hasLimitAux, limitMatchHere_space_head hc, pySpace_not_word hc]
    · rw [lstrip, List.dropWhile_cons, if_neg hc]

theorem hasLimit_pstrip (s : List Char) : hasLimit (pstrip s) = hasLimit s := by
  unfold hasLimit pstrip rstripWs
  obtain ⟨ws, hdec, hws⟩ := rstripP_decomp isPySpace (lstrip s)
  calc hasLimitAux true (rstripP isPySpace (lstrip s))
      = hasLimitAux true (rstripP isPySpace (lstrip s) ++ ws) :=
        (hasLimitAux_append_ws hws true).symm
    _ = hasLimitAux true (lstrip s) := by rw [← hdec]
    _ = hasLimitAux true s := hasLimitAux_dropSpaces s

theorem hasLimitAux_glue (x : List Char) : ∀ b, hasLimitAux b (x ++ limitGlue) = true := by
  induction x with
  | nil =>
    intro b
    cases b <;> decide
  | cons c x' ih =>
    intro b
    simp only [List.cons_append, hasLimitAux, List.append_eq, ih, Bool.or_true]

/-! ## Shape of the approved string -/

/-- Properties of every character that can match the literal `select`. -/
abbrev SelChar (c : Char) : Prop :=
  isWordChar c = true ∧ isPySpace c = false ∧ (c == ';') = false

theorem selPat_chars : ∀ pr ∈ selPat, SelChar pr.1 ∧ SelChar pr.2 := by decide

theorem selAfter_decomp {t r : List Char} (h : dropToks selPat t = some r) :
    ∃ a, t = a ++ r ∧ dropToks selPat a = some [] ∧ (∀ c ∈ a, SelChar c) ∧ a ≠ [] := by
  obtain ⟨a, ht, hd, hq, hl⟩ := dropToks_decomp SelChar selPat_chars h
  refine ⟨a, ht, hd, hq, ?_⟩
  intro hnil
  rw [hnil] at hl
  simp [selPat] at hl

theorem lstrip_pstrip (l : List Char) : lstrip (pstrip l) = pstrip l := by
  cases hx : pstrip l with
  | nil => rfl
  | cons c t =>
    have hne : rstripP isPySpace (lstrip l) ≠ [] := by
      rw [show rstripP isPySpace (lstrip l) = pstrip l from rfl, hx]
      simp
    have hh := head_rstripP hne
    rw [show rstripP isPySpace (lstrip l) = pstrip l from rfl, hx] at hh
    have hc : isPySpace c = false := by
      refine dropWhile_head_false (p := isPySpace) l ?_
      rw [show List.dropWhile isPySpace l = lstrip l from rfl, ← hh]
      rfl
    rw [lstrip, List.dropWhile_cons_of_neg (by simp [hc])]

theorem pstrip_idem (l : List Char) : pstrip (pstrip l) = pstrip l := by
  conv_lhs => rw [pstrip, lstrip_pstrip]
  exact rstripP_idem isPySpace (lstrip l)

theorem pstrip_glue {hd : Char} {tl : List Char} (h : isPySpace hd = false) :
    pstrip ((hd :: tl) ++ limitGlue) = (hd :: tl) ++ limitGlue := by
  rw [pstrip, lstrip, List.cons_append, List.dropWhile_cons_of_neg (by simp [h])]
  rw [← List.cons_append, rstripWs, rstripP_append]
  rw [show rstripP isPySpace limitGlue = limitGlue from by decide]
  rw [if_neg (by decide)]

/-- The core shape fact: if the (stripped) candidate starts with `select`
and a word boundary, then the string obtained by stripping trailing
whitespace and trailing semicolons is nonempty, starts with the same
non-whitespace character, and still starts with `select` and a word
boundary after the `" LIMIT 100;"` glue is appended. -/
theorem approved_shape {t : List Char} (hsel : selAfter t = true) :
    ∃ hd tl, rstripSemi (rstripWs t) = hd :: tl ∧ isPySpace hd = false ∧
      selAfter (rstripSemi (rstripWs t) ++ limitGlue) = true := by
  rcases hdt : dropToks selPat t with _ | r
  · rw [selAfter, hdt] at hsel
    exact absurd hsel (by simp)
  · rw [selAfter, hdt] at hsel
    obtain ⟨a, ht, hda, hqa, hane⟩ := selAfter_decomp hdt
    have hawsfree : ∀ c ∈ a, isPySpace c = false := fun c hc => (hqa c hc).2.1
    have hasemifree : ∀ c ∈ a, (c == ';') = false := fun c hc => (hqa c hc).2.2
    obtain ⟨c, a', rfl⟩ : ∃ c a', a = c :: a' := by
      cases a with
      | nil => exact absurd rfl hane
      | cons c a' => exact ⟨_, _, rfl⟩
    have hchd : isPySpace c = false := (hqa c (List.mem_cons_self _ _)).2.1
    have hself : selAfter ((c :: a') ++ limitGlue) = true := by
      rw [selAfter, dropToks_append hda]
      rfl
    subst ht
    rw [rstripWs, rstripP_append]
    by_cases hr1 : rstripP isPySpace r = []
    · rw [if_pos hr1, rstripP_eq_self hawsfree, rstripSemi, rstripP_eq_self hasemifree]
      exact ⟨c, a', rfl, hchd, hself⟩
    · rw [if_neg hr1]
      rw [rstripSemi, rstripP_append]
      by_cases hr2 : rstripP (fun c => c == ';') (rstripP isPySpace r) = []
      · rw [if_pos hr2, rstripP_eq_self hasemifree]
        exact ⟨c, a', rfl, hchd, hself⟩
      · rw [if_neg hr2]
        have hrne : r ≠ [] := by
          intro h0
          rw [h0] at hr1
          exact hr1 rfl
        obtain ⟨rc, rt, rfl⟩ : ∃ rc rt, r = rc :: rt := by
          cases r with
          | nil => exact absurd rfl hrne
          | cons rc rt => exact ⟨_, _, rfl⟩
        have hrcword : isWordChar rc = false := by
          simpa [boundOk] using hsel
        have hh1 := head_rstripP (p := isPySpace) (l := rc :: rt) hr1
        have hh2 := head_rstripP (p := fun c => c == ';')
          (l := rstripP isPySpace (rc :: rt)) hr2
        rw [hh1] at hh2
        obtain ⟨xc, xt, hx⟩ : ∃ xc xt,
            rstripP (fun c => c == ';') (rstripP isPySpace (rc :: rt)) = xc :: xt := by
          cases hxx : rstripP (fun c => c == ';') (rstripP isPySpace (rc :: rt)) with
          | nil => exact absurd hxx hr2
          | cons xc xt => exact ⟨_, _, rfl⟩
        rw [hx] at hh2
        simp only [List.head?_cons, Option.some.injEq] at hh2
        subst hh2
        refine ⟨c, a' ++ xc :: xt, by rw [hx]; rfl, hchd, ?_⟩
        rw [hx, List.append_assoc, selAfter, dropToks_append hda]
        simp [boundOk, hrcword]

/-! ## Guardrail characterisation -/

theorem rstripWs_pstrip (l : List Char) : rstripWs (pstrip l) = pstrip l :=
  rstripP_idem isPySpace (lstrip l)

theorem guardrail_error {out : List Char} (h : matchesSelect (pstrip out) = false) :
    guardrail out = .error (nonSelectMsg ++ pstrip out) := by
  rw [guardrail]
  rw [if_pos h]

theorem guardrail_ok_cases {out s : List Char} (h : guardrail out = .ok s) :
    matchesSelect (pstrip out) = true ∧
    ((hasLimit (pstrip out) = false ∧ s = rstripSemi (pstrip out) ++ limitGlue) ∨
     (hasLimit (pstrip out) = true ∧ s = pstrip out)) := by
  rw [guardrail] at h
  by_cases h1 : matchesSelect (pstrip out) = false
  · rw [if_pos h1] at h
    exact absurd h (by simp)
  · rw [if_neg h1] at h
    have h1' : matchesSelect (pstrip out) = true := by simpa using h1
    refine ⟨h1', ?_⟩
    by_cases h2 : hasLimit (pstrip out) = false
    · rw [if_pos h2] at h
      simp only [Except.ok.injEq] at h
      left
      refine ⟨h2, ?_⟩
      rw [← h, rstripWs_pstrip]
    · rw [if_neg h2] at h
      simp only [Except.ok.injEq] at h
      right
      exact ⟨by simpa using h2, h.symm⟩

/-! ## Per-question failure casework -/

theorem processQuestion_error (env : Env) (q e : List Char)
    (he : pipelineResult env q = .error e) :
    countErrors (processQuestion env q) = 1 ∧
    (processQuestion env q).getLast? = some (.errorSec e) ∧
    ∀ a, OutEvent.answerSec a ∉ processQuestion env q := by
  cases hg : generate_sql env q with
  | error e1 =>
    simp only [pipelineResult, hg] at he
    rw [Except.error.injEq] at he
    subst he
    simp [processQuestion, hg, countErrors, isErrorSec]
  | ok sql =>
    cases hd : env.db sql with
    | error e1 =>
      simp only [pipelineResult, hg, hd] at he
      rw [Except.error.injEq] at he
      subst he
      simp [processQuestion, hg, hd, countErrors, isErrorSec]
    | ok cr =>
      obtain ⟨cols, rows⟩ := cr
      cases hsum : env.llmSum q (previewOf cols rows) with
      | error e1 =>
        have hs : summarize env q cols rows = .error e1 := by
          simp [summarize, hsum]
        simp only [pipelineResult, hg, hd, hs] at he
        rw [Except.error.injEq] at he
        subst he
        by_cases hc : cols.isEmpty = true <;>
          simp [processQuestion, hg, hd, hs, hc, countErrors, isErrorSec]
      | ok ans =>
        have hs : summarize env q cols rows = .ok (pstrip ans) := by
          simp [summarize, hsum]
        simp only [pipelineResult, hg, hd, hs] at he
        exact absurd he (by simp)

/-! ## Concrete environments used by witnesses and counterexamples -/

/-- Environment in which the model emits a destructive statement. -/
def envC1 : Env :=
  { schemaDdl := .ok "CREATE TABLE products (id INT);".data
    llm := fun _ => .ok "DROP TABLE products;".data
    db := fun _ => .ok ([], [])
    llmSum := fun _ _ => .ok [] }

/-- Environment in which the model smuggles a second statement after a
semicolon and the database echoes the SQL it is asked to run. -/
def envC4 : Env :=
  { schemaDdl := .ok []
    llm := fun _ => .ok "SELECT 1; DROP TABLE t".data
    db := fun sql => .ok ([sql], [])
    llmSum := fun _ _ => .ok [] }

/-- Environment in which query execution fails. -/
def envDbFail : Env :=
  { schemaDdl := .ok "CREATE TABLE t (id INT);".data
    llm := fun _ => .ok "SELECT missing FROM t".data
    db := fun _ => .error "Unknown column".data
    llmSum := fun _ _ => .ok "ans".data }

/-- Environment in which execution succeeds with one column and no rows. -/
def envZeroRows : Env :=
  { schemaDdl := .ok "CREATE TABLE t (id INT);".data
    llm := fun _ => .ok "SELECT id FROM t WHERE id < 0".data
    db := fun _ => .ok (["id".data], [])
    llmSum := fun _ _ => .ok "there are no matching rows".data }

/-- Environment in which every step succeeds. -/
def envOk : Env :=
  { schemaDdl := .ok "CREATE TABLE t (id INT);".data
    llm := fun _ => .ok "SELECT id FROM t".data
    db := fun _ => .ok (["id".data], [["1".data]])
    llmSum := fun _ _ => .ok "one row".data }

/-- Environment in which only the summarizer call fails. -/
def envSumFail : Env :=
  { schemaDdl := .ok "CREATE TABLE t (id INT);".data
    llm := fun _ => .ok "SELECT id FROM t".data
    db := fun _ => .ok (["id".data], [["1".data]])
    llmSum := fun _ _ => .error "rate limit".data }

/-! ## Claims -/

/-- Claim C1: every candidate whose whitespace-trimmed text does not begin
with the case-insensitive keyword `SELECT` is rejected by the guardrail
with an error carrying the (trimmed) candidate text, and — whatever the
database and summarizer oracles would do — the question's output is that
single error section, so the candidate is never passed to execution. -/
theorem C1_reject_non_select (env : Env) (q sch cand : List Char)
    (hs : env.schemaDdl = .ok sch)
    (hl : env.llm (promptOf sch q) = .ok cand)
    (hns : matchesSelect (pstrip cand) = false) :
    generate_sql env q = .error (nonSelectMsg ++ pstrip cand) ∧
    ∀ d ls, processQuestion { env with db := d, llmSum := ls } q
      = [.errorSec (nonSelectMsg ++ pstrip cand)] := by
  have hg : generate_sql env q = .error (nonSelectMsg ++ pstrip cand) := by
    simp only [generate_sql, hs, hl]
    exact guardrail_error hns
  refine ⟨hg, fun d ls => ?_⟩
  have hg2 : generate_sql { env with db := d, llmSum := ls } q
      = .error (nonSelectMsg ++ pstrip cand) := by
    simp only [generate_sql, hs, hl]
    exact guardrail_error hns
  simp [processQuestion, hg2]

/-- Witness for C1: the spec scenario `"DROP TABLE products;"`. -/
theorem C1_reject_non_select_witness :
    generate_sql envC1 "list products".data
      = .error (nonSelectMsg ++ pstrip "DROP TABLE products;".data) ∧
    processQuestion
        { envC1 with db := fun _ => .ok (["id".data], []),
                     llmSum := fun _ _ => .ok "x".data } "list products".data
      = [.errorSec (nonSelectMsg ++ pstrip "DROP TABLE products;".data)] := by
  have h := C1_reject_non_select envC1 "list products".data
    "CREATE TABLE products (id INT);".data "DROP TABLE products;".data rfl rfl rfl
  exact ⟨h.1, h.2 _ _⟩

/-- Claim C2: when the guardrail approves a candidate, then if the
candidate contains no `LIMIT <digits>` token the approved string is the
trimmed candidate with its trailing semicolons stripped plus the suffix
`" LIMIT 100;"` (so it ends with `LIMIT 100;`), and if the candidate does
contain such a token the approved string is the candidate unchanged except
for trimming surrounding whitespace. -/
theorem C2_limit_append (cand s : List Char) (h : guardrail cand = .ok s) :
    (hasLimit cand = false →
      s = rstripSemi (pstrip cand) ++ limitGlue ∧ "LIMIT 100;".data <:+ s) ∧
    (hasLimit cand = true → s = pstrip cand) := by
  obtain ⟨hsel, hcase⟩ := guardrail_ok_cases h
  constructor
  · intro hno
    rcases hcase with ⟨h2, hs⟩ | ⟨h2, hs⟩
    · refine ⟨hs, ?_⟩
      rw [hs]
      refine ⟨rstripSemi (pstrip cand) ++ [' '], ?_⟩
      rw [List.append_assoc]
      rfl
    · rw [hasLimit_pstrip] at h2
      rw [h2] at hno
      cases hno
  · intro hyes
    rcases hcase with ⟨h2, hs⟩ | ⟨h2, hs⟩
    · rw [hasLimit_pstrip] at h2
      rw [h2] at hyes
      cases hyes
    · exact hs

/-- Witness for C2: the spec scenario `"SELECT * FROM products"`. -/
theorem C2_limit_append_witness :
    (hasLimit "SELECT * FROM products".data = false →
      "SELECT * FROM products LIMIT 100;".data
        = rstripSemi (pstrip "SELECT * FROM products".data) ++ limitGlue ∧
      "LIMIT 100;".data <:+ "SELECT * FROM products LIMIT 100;".data) ∧
    (hasLimit "SELECT * FROM products".data = true →
      "SELECT * FROM products LIMIT 100;".data
        = pstrip "SELECT * FROM products".data) :=
  C2_limit_append "SELECT * FROM products".data
    "SELECT * FROM products LIMIT 100;".data rfl

/-- Claim C3: the guardrail is idempotent — running it on any string it has
approved approves that string unchanged. -/
theorem C3_guardrail_idempotent (cand s : List Char)
    (h : guardrail cand = .ok s) : guardrail s = .ok s := by
  obtain ⟨hsel, hcase⟩ := guardrail_ok_cases h
  have hsel' : selAfter (pstrip cand) = true := by
    rw [matchesSelect, lstrip_pstrip] at hsel
    exact hsel
  rcases hcase with ⟨h2, hs⟩ | ⟨h2, hs⟩
  · obtain ⟨hd, tl, hX, hhd, hselX⟩ := approved_shape hsel'
    rw [rstripWs_pstrip] at hX hselX
    rw [hX] at hs hselX
    have hps : pstrip s = s := by
      rw [hs]
      exact pstrip_glue hhd
    have hms : matchesSelect s = true := by
      rw [hs, matchesSelect, lstrip, List.cons_append,
        List.dropWhile_cons_of_neg (by simp [hhd]), ← List.cons_append]
      exact hselX
    have hlim : hasLimit s = true := by
      rw [hs]
      exact hasLimitAux_glue _ true
    rw [guardrail, hps, hms, hlim]
    simp
  · have hps : pstrip s = s := by
      rw [hs]
      exact pstrip_idem cand
    have hms : matchesSelect s = true := by
      rw [hs]
      exact hsel
    have hlim : hasLimit s = true := by
      rw [hs]
      exact h2
    rw [guardrail, hps, hms, hlim]
    simp

/-- Witness for C3: re-running the guardrail on the approved form of
`"SELECT * FROM products"` returns it unchanged. -/
theorem C3_guardrail_idempotent_witness :
    guardrail "SELECT * FROM products LIMIT 100;".data
      = .ok "SELECT * FROM products LIMIT 100;".data :=
  C3_guardrail_idempotent "SELECT * FROM products".data
    "SELECT * FROM products LIMIT 100;".data rfl

/-- Claim C4: the guardrail is only a prefix check — the candidate
`"SELECT 1; DROP TABLE t"`, which begins with `SELECT` and smuggles a
second, destructive statement after a semicolon, is approved, and the
approved text (still containing `"; DROP TABLE t"`) is handed to the
execution oracle: the echoing database of `envC4` receives it. -/
theorem C4_multi_statement_approved :
    guardrail "SELECT 1; DROP TABLE t".data
      = .ok "SELECT 1; DROP TABLE t LIMIT 100;".data ∧
    "; DROP TABLE t".data <:+: "SELECT 1; DROP TABLE t LIMIT 100;".data ∧
    processQuestion envC4 "q".data =
      [.sqlSec "SELECT 1; DROP TABLE t LIMIT 100;".data,
       .resultTable ["SELECT 1; DROP TABLE t LIMIT 100;".data] [],
       .answerSec []] := by
  refine ⟨rfl, ⟨"SELECT 1".data, " LIMIT 100;".data, ?_⟩, rfl⟩
  rfl

/-- Claim C5: for a non-exit input line, the loop runs the pipeline on the
trimmed line and then continues with the remaining input — a failing
question never terminates the session — and whenever the per-question
pipeline fails, exactly one `[ERROR]` section is printed, carrying the
failure's message, as the final output of that question. -/
theorem C5_error_caught_once (env : Env) (line : List Char)
    (rest : List (List Char)) (hne : isExitCmd (pstrip line) = false) :
    loop env (line :: rest) = processQuestion env (pstrip line) ++ loop env rest ∧
    ∀ e, pipelineResult env (pstrip line) = .error e →
      countErrors (processQuestion env (pstrip line)) = 1 ∧
      (processQuestion env (pstrip line)).getLast? = some (.errorSec e) := by
  constructor
  · simp [loop, hne]
  · intro e he
    obtain ⟨hc, hl, _⟩ := processQuestion_error env (pstrip line) e he
    exact ⟨hc, hl⟩

/-- Witness for C5: a failing database call produces one `[ERROR]` section
and the loop moves on to the rest of the input. -/
theorem C5_error_caught_once_witness :
    (loop envDbFail ["how many".data]
      = processQuestion envDbFail (pstrip "how many".data) ++ loop envDbFail []) ∧
    countErrors (processQuestion envDbFail (pstrip "how many".data)) = 1 ∧
    (processQuestion envDbFail (pstrip "how many".data)).getLast?
      = some (.errorSec "Unknown column".data) := by
  have h := C5_error_caught_once envDbFail "how many".data [] rfl
  exact ⟨h.1, h.2 "Unknown column".data rfl⟩

/-- Counterexample to C6 as stated: when execution fails, the `[SQL]`
section has already been printed for that failed question, so it is not
true that none of the `[SQL]`/`[RESULT]`/`[ANSWER]` sections appears. -/
theorem C6_partial_sections_cex :
    pipelineResult envDbFail "q".data = .error "Unknown column".data ∧
    OutEvent.sqlSec "SELECT missing FROM t LIMIT 100;".data
      ∈ processQuestion envDbFail "q".data := by
  refine ⟨rfl, ?_⟩
  rw [show processQuestion envDbFail "q".data
    = [.sqlSec "SELECT missing FROM t LIMIT 100;".data,
       .errorSec "Unknown column".data] from rfl]
  exact List.mem_cons_self _ _

/-- Claim C6 (amended): for every failed question the `[ERROR]` section
carrying the error's message is printed exactly once, as the final section,
and the `[ANSWER]` section is never printed; sections already printed
before the failing step remain — a failure in execution leaves exactly the
`[SQL]` section before the error, a failure in summarization leaves exactly
the `[SQL]` and `[RESULT]` sections before the error — and the output is
exactly the `[ERROR]` section alone (none of the three) precisely when SQL
generation (schema fetch, model call or guardrail) itself failed. -/
theorem C6_error_section_on_failure (env : Env) (q e : List Char)
    (he : pipelineResult env q = .error e) :
    countErrors (processQuestion env q) = 1 ∧
    (processQuestion env q).getLast? = some (.errorSec e) ∧
    (∀ a, OutEvent.answerSec a ∉ processQuestion env q) ∧
    (generate_sql env q = .error e ↔ processQuestion env q = [.errorSec e]) ∧
    (∀ sql, generate_sql env q = .ok sql → env.db sql = .error e →
      processQuestion env q = [.sqlSec sql, .errorSec e]) ∧
    (∀ sql cols rows, generate_sql env q = .ok sql →
      env.db sql = .ok (cols, rows) → summarize env q cols rows = .error e →
      processQuestion env q =
        [.sqlSec sql,
         if cols.isEmpty then OutEvent.resultEmpty
         else OutEvent.resultTable cols rows,
         .errorSec e]) := by
  obtain ⟨hc, hl, hna⟩ := processQuestion_error env q e he
  refine ⟨hc, hl, hna, ⟨fun hg => by simp [processQuestion, hg], fun hp => ?_⟩,
    fun sql hg hd => by simp [processQuestion, hg, hd],
    fun sql cols rows hg hd hs => by simp [processQuestion, hg, hd, hs]⟩
  cases hg : generate_sql env q with
  | error e1 =>
    simp only [pipelineResult, hg] at he
    rw [Except.error.injEq] at he
    subst he
    rfl
  | ok sql =>
    exfalso
    cases hd : env.db sql with
    | error e1 => simp [processQuestion, hg, hd] at hp
    | ok cr =>
      obtain ⟨cols, rows⟩ := cr
      cases hsum : env.llmSum q (previewOf cols rows) with
      | error e1 =>
        have hs : summarize env q cols rows = .error e1 := by
          simp [summarize, hsum]
        simp [processQuestion, hg, hd, hs] at hp
      | ok ans =>
        have hs : summarize env q cols rows = .ok (pstrip ans) := by
          simp [summarize, hsum]
        simp [processQuestion, hg, hd, hs] at hp

/-- Witness for C6's amended statement, at a concrete failing database
call (the `[SQL]` section remains) and at a concrete failing summarizer
call (the `[SQL]` and `[RESULT]` sections remain). -/
theorem C6_error_section_on_failure_witness :
    processQuestion envDbFail "q2".data
      = [.sqlSec "SELECT missing FROM t LIMIT 100;".data,
         .errorSec "Unknown column".data] ∧
    processQuestion envSumFail "q3".data
      = [.sqlSec "SELECT id FROM t LIMIT 100;".data,
         .resultTable ["id".data] [["1".data]],
         .errorSec "rate limit".data] ∧
    countErrors (processQuestion envDbFail "q2".data) = 1 ∧
    OutEvent.answerSec "ans".data ∉ processQuestion envDbFail "q2".data := by
  have h1 := C6_error_section_on_failure envDbFail "q2".data "Unknown column".data rfl
  have h2 := C6_error_section_on_failure envSumFail "q3".data "rate limit".data rfl
  exact ⟨h1.2.2.2.2.1 _ rfl rfl, h2.2.2.2.2.2 _ _ _ rfl rfl rfl, h1.1, h1.2.2.1 _⟩

/-- Counterexample to C7 as stated: a query execution that returns zero
rows (but a nonempty column list) renders an empty `[RESULT]` table, not
the `(no rows)` notice — the notice is keyed on the column list. -/
theorem C7_zero_rows_table_cex :
    envZeroRows.db "SELECT id FROM t WHERE id < 0 LIMIT 100;".data
      = .ok (["id".data], []) ∧
    processQuestion envZeroRows "which".data =
      [.sqlSec "SELECT id FROM t WHERE id < 0 LIMIT 100;".data,
       .resultTable ["id".data] [],
       .answerSec "there are no matching rows".data] ∧
    OutEvent.resultEmpty ∉ processQuestion envZeroRows "which".data := by
  refine ⟨rfl, rfl, ?_⟩
  rw [show processQuestion envZeroRows "which".data =
      [.sqlSec "SELECT id FROM t WHERE id < 0 LIMIT 100;".data,
       .resultTable ["id".data] [],
       .answerSec "there are no matching rows".data] from rfl]
  decide

/-- Claim C7 (amended): the explicit empty-result notice is rendered
exactly when the executed query's column list is empty; when the column
list is nonempty the `[RESULT]` section is the table of columns and rows —
even when the row list is empty, in which case the table is an empty one
rather than the notice. -/
theorem C7_notice_iff_no_columns (env : Env) (q sql : List Char)
    (cols : Cols) (rows : List Row)
    (hg : generate_sql env q = .ok sql) (hd : env.db sql = .ok (cols, rows)) :
    (cols = [] → OutEvent.resultEmpty ∈ processQuestion env q ∧
      ∀ c r, OutEvent.resultTable c r ∉ processQuestion env q) ∧
    (cols ≠ [] → OutEvent.resultTable cols rows ∈ processQuestion env q ∧
      OutEvent.resultEmpty ∉ processQuestion env q) := by
  constructor
  · intro hc
    subst hc
    cases hsum : env.llmSum q (previewOf [] rows) with
    | error e1 =>
      have hs : summarize env q [] rows = .error e1 := by
        simp [summarize, hsum]
      simp [processQuestion, hg, hd, hs]
    | ok ans =>
      have hs : summarize env q [] rows = .ok (pstrip ans) := by
        simp [summarize, hsum]
      simp [processQuestion, hg, hd, hs]
  · intro hc
    have hcc : cols.isEmpty = false := by
      cases cols with
      | nil => exact absurd rfl hc
      | cons c cs => rfl
    cases hsum : env.llmSum q (previewOf cols rows) with
    | error e1 =>
      have hs : summarize env q cols rows = .error e1 := by
        simp [summarize, hsum]
      simp [processQuestion, hg, hd, hs, hcc]
    | ok ans =>
      have hs : summarize env q cols rows = .ok (pstrip ans) := by
        simp [summarize, hsum]
      simp [processQuestion, hg, hd, hs, hcc]

/-- Witness for C7's amended statement: one column, zero rows — the table
section (with an empty row list) appears and the notice does not. -/
theorem C7_notice_iff_no_columns_witness :
    OutEvent.resultTable ["id".data] [] ∈ processQuestion envZeroRows "w".data ∧
    OutEvent.resultEmpty ∉ processQuestion envZeroRows "w".data :=
  (C7_notice_iff_no_columns envZeroRows "w".data
    "SELECT id FROM t WHERE id < 0 LIMIT 100;".data ["id".data] [] rfl rfl).2
    (by simp)

/-- Claim C8: the preview handed to the summarizer keeps all column names
but at most the first 50 rows, in order, whatever the true result size;
`summarize` consults the model only through this bounded preview. -/
theorem C8_preview_bounded (cols : Cols) (rows : List Row)
    (env : Env) (q : List Char) :
    (previewOf cols rows).1 = cols ∧
    (previewOf cols rows).2.length ≤ 50 ∧
    (previewOf cols rows).2 <+: rows ∧
    summarize env q cols rows
      = Except.map pstrip (env.llmSum q (previewOf cols rows)) := by
  refine ⟨rfl, ?_, List.take_prefix 50 rows, ?_⟩
  · rw [show (previewOf cols rows).2 = rows.take 50 from rfl, List.length_take]
    exact min_le_left _ _
  · cases hsum : env.llmSum q (previewOf cols rows) with
    | error e => simp [summarize, hsum, Except.map]
    | ok t => simp [summarize, hsum, Except.map]

/-- Claim C9: the schema snapshot is the blank-line-separated concatenation
of exactly one definition block per table reported by the catalog listing;
the listing is a permutation of the schema's tables in sorted (lexicographic)
order, and every block ends with the statement delimiter `;`. -/
theorem C9_snapshot_blocks (db : Db) :
    (catalogTables db).Perm db.tableNames ∧
    List.Sorted (· ≤ ·) (catalogTables db) ∧
    get_schema_ddl db = List.intercalate ['\n', '\n'] (ddlBlocks db) ∧
    (ddlBlocks db).length = (catalogTables db).length ∧
    ∀ b ∈ ddlBlocks db, b.getLast? = some ';' := by
  refine ⟨List.perm_insertionSort _ _, List.sorted_insertionSort _ _, rfl,
    List.length_map _ _, ?_⟩
  intro b hb
  obtain ⟨t, ht, rfl⟩ := List.mem_map.mp hb
  exact List.getLast?_concat _

/-- Claim C10: an input line whose trimmed, lowercased form is not `exit`
or `quit` is processed as a question — the full pipeline runs on the
trimmed text and the loop continues — and the empty line is not an exit
command, so empty input is processed like any other question. -/
theorem C10_nonexit_processed (env : Env) (line : List Char)
    (rest : List (List Char)) (hne : isExitCmd (pstrip line) = false) :
    loop env (line :: rest) = processQuestion env (pstrip line) ++ loop env rest ∧
    isExitCmd [] = false := by
  refine ⟨?_, rfl⟩
  simp [loop, hne]

/-- Witness for C10: a whitespace-only line trims to the empty question and
still goes through the pipeline. -/
theorem C10_nonexit_processed_witness :
    loop envOk ["   ".data] = processQuestion envOk (pstrip "   ".data)
      ++ loop envOk [] ∧
    isExitCmd [] = false :=
  C10_nonexit_processed envOk "   ".data [] rfl
